import Mathlib

/-!
Shallow embedding of the Alpaca websocket streaming client
(AlpacaWebSocket: connect, subscribe, exchangeMessage, receiveMessages,
setReadDeadline, listen).  External effects — the websocket dial, frame
reads and writes, the keepalive ticker and the interleaving of the two
concurrent tasks — are supplied by explicit oracles, and every observable
action of the client (log calls, transport calls, channel sends, resource
releases) is recorded in an event trace.  Durations and instants are
nanosecond counts, as in Go.
-/

namespace AlpacaWS

/-- Byte payload of a websocket data frame. -/
abbrev Bytes := List Nat

/-- Model of strings.Contains: sub occurs as a contiguous substring of s. -/
def goContains (s sub : String) : Bool :=
  s.toList.tails.any fun t => sub.toList.isPrefixOf t

/-- An HTTP response returned by the remote during the dial: status code and
body (the body bytes read by io.ReadAll). -/
structure HResp where
  statusCode : Int
  body : String
  deriving DecidableEq

/-- Observable actions of the client. -/
inductive Ev where
  | closeBody
  | closeConn
  | stopTicker
  | setReadLimit (n : Int)
  | setPongHandler
  | logConnectFailure (e : String)
  | logInfoS (s : String)
  | logAuthenticated
  | logSubscribed
  | logAuthFailure (response e : String)
  | logSubFailure (response e : String)
  | logWarnBinary
  | logReadFailure (e : String)
  | logPingFailure (e : String)
  | writeMsg (s : String)
  | armDeadline (deadline : Nat)
  | sendErr (e : String)
  | sendOut (pp : Bytes)
  | output (pp : Bytes)
  | pingSent
  deriving DecidableEq

/-- Outcome of websocket.Dialer.Dial: the dial error (none on success) and
the HTTP response the remote returned, when any.  On success the dialer
always attaches a response; on pre-HTTP failures (refused connection, DNS)
the response pointer is nil. -/
structure DialOutcome where
  dialErr : Option String
  hresp : Option HResp
  deriving DecidableEq

inductive ConnectResult where
  | ok
  | fail (e : String)
  | panicked
  deriving DecidableEq

/-- Error text built by connect when the remote returned a response before
failing: fmt.Errorf with the wrapped dial error, the status code and the
body. -/
def connectFailureMsg (e : String) (r : HResp) : String :=
  "[alpaca] connection failure, err: " ++ e ++ ", status_code: "
    ++ toString r.statusCode ++ ", body: " ++ r.body

/-- Error text of the no-response branch of connect.  In the source this
branch is unreachable: the deferred body-close dereferences the nil
response first (see connect below). -/
def connectFailureMsgNoResp (e : String) : String :=
  "[alpaca] connection failure, err: " ++ e

/-- Model of connect (part_000 lines 121-147).  The dial runs with a 2s
handshake timeout; immediately after it, a deferred close of hresp.Body is
registered.  The defer statement evaluates its argument hresp.Body at
registration time, so when the dial returned no response (hresp is a nil
pointer) the field access dereferences nil and the goroutine panics before
any error can be returned.  When a response is present its body is closed
on every exit path, and a dial error is wrapped together with the status
code and body. -/
def connect (d : DialOutcome) : ConnectResult × List Ev :=
  match d.hresp with
  | none => (ConnectResult.panicked, [])
  | some r =>
    match d.dialErr with
    | some e => (ConnectResult.fail (connectFailureMsg e r), [Ev.closeBody])
    | none => (ConnectResult.ok, [Ev.closeBody])

/-- Authentication request built by subscribe (fmt.Sprintf with key and
secret spliced into the JSON text). -/
def authMsg (key secret : String) : String :=
  "\x7b\"action\": \"auth\", \"key\": \"" ++ key
    ++ "\", \"secret\": \"" ++ secret ++ "\"\x7d"

/-- Informational log line emitted by exchangeMessage for a non-matching
response. -/
def responseLogLine (response expect : String) : String :=
  "[javierlopeza] response: " ++ response ++ ", expect: " ++ expect

/-- Informational log line emitted by subscribe just before authenticating:
it interpolates the full authentication request, credentials included. -/
def authLogLine (key secret : String) : String :=
  "[javierlopeza] " ++ authMsg key secret

/-- Acceptance marker awaited after the authentication request (the Go
literal includes the surrounding double quotes). -/
def expectedAuthMarker : String := "\"authenticated\""

/-- Acceptance marker awaited after the subscription request. -/
def expectedSubMarker : String := "streams"

/-- Lower-case hexadecimal digit, as printed by Go escape sequences. -/
def hexDigit (n : Nat) : Char :=
  if n < 10 then Char.ofNat (48 + n) else Char.ofNat (87 + n)

/-- Escaping of one character under strconv.Quote, which underlies
fmt.Sprintf with the %q verb: double quote and backslash are escaped,
printable ASCII is kept, control characters get their named or hex escape.
Printable characters beyond ASCII are kept verbatim (sufficient here:
subscription identifiers are ASCII). -/
def goEscapeChar (c : Char) : List Char :=
  if c = '"' then ['\\', '"']
  else if c = '\\' then ['\\', '\\']
  else if 0x20 ≤ c.toNat ∧ c.toNat < 0x7f then [c]
  else if c.toNat = 7 then ['\\', 'a']
  else if c.toNat = 8 then ['\\', 'b']
  else if c.toNat = 12 then ['\\', 'f']
  else if c.toNat = 10 then ['\\', 'n']
  else if c.toNat = 13 then ['\\', 'r']
  else if c.toNat = 9 then ['\\', 't']
  else if c.toNat = 11 then ['\\', 'v']
  else if c.toNat < 0x80 then ['\\', 'x', hexDigit (c.toNat / 16), hexDigit (c.toNat % 16)]
  else [c]

/-- Model of strconv.Quote: the string wrapped in double quotes with each
character escaped. -/
def goQuote (s : String) : String :=
  String.mk ('"' :: (s.toList.flatMap goEscapeChar ++ ['"']))

/-- Separator-joined concatenation (the layout fmt uses for slices:
elements separated by single spaces). -/
def joinSep (sep : String) : List String → String
  | [] => ""
  | [s] => s
  | s :: rest => s ++ sep ++ joinSep sep rest

/-- Model of fmt.Sprintf with the %q verb applied to a string slice:
bracketed, space-separated, each element quoted. -/
def quoteSlice (subs : List String) : String :=
  "[" ++ joinSep " " (subs.map goQuote) ++ "]"

/-- Model of strings.ReplaceAll with the one-character pattern a space and
the one-character replacement a comma: character-wise substitution. -/
def goReplaceSpaceComma (s : String) : String :=
  String.mk (s.toList.map fun c => if c = ' ' then ',' else c)

/-- Subscription request built by subscribe: the %q-formatted topic slice
with every space replaced by a comma, spliced into the JSON text. -/
def subMsg (subs : List String) : String :=
  "\x7b\"action\": \"listen\", \"data\": \x7b\"streams\": "
    ++ goReplaceSpaceComma (quoteSlice subs) ++ "\x7d\x7d"

/-- One result of conn.ReadMessage during a handshake exchange: a data
message decoded to a string, or a read error. -/
inductive XchgRead where
  | readOk (pp : String)
  | readErr (e : String)
  deriving DecidableEq

/-- Result of exchangeMessage: the returned (response, error) pair, or
pending when the supplied reads were exhausted with the loop still
blocked on the next read. -/
inductive XchgResult where
  | ret (response : String) (error : Option String)
  | pending
  deriving DecidableEq

/-- Oracle for one exchangeMessage call: the result of the WriteMessage
call and the successive ReadMessage results. -/
structure XchgOracle where
  writeErr : Option String
  reads : List XchgRead
  deriving DecidableEq

/-- Read loop of exchangeMessage (part_000 lines 204-217): read; a read
error returns the pair of the empty string and that error; a response
containing the expected marker breaks and is returned with no error; any
other response is logged and the loop reads again. -/
def xchgLoop (expect : String) : List XchgRead → List Ev × XchgResult
  | [] => ([], XchgResult.pending)
  | XchgRead.readErr e :: _ => ([], XchgResult.ret "" (some e))
  | XchgRead.readOk pp :: rest =>
    if goContains pp expect then ([], XchgResult.ret pp none)
    else
      let r := xchgLoop expect rest
      (Ev.logInfoS (responseLogLine pp expect) :: r.1, r.2)

/-- Model of exchangeMessage (part_000 lines 198-220): send the request as
a text message (a write error is returned at once with an empty response),
then run the read loop. -/
def exchangeMessage (send expect : String) (o : XchgOracle) : List Ev × XchgResult :=
  match o.writeErr with
  | some e => ([Ev.writeMsg send], XchgResult.ret "" (some e))
  | none =>
    let r := xchgLoop expect o.reads
    (Ev.writeMsg send :: r.1, r.2)

/-- Deadline computed by setReadDeadline (part_000 lines 97-100):
time.Now() plus pingPeriod times six, divided by five (integer duration
arithmetic).  The underlying transport call is modeled as succeeding. -/
def setReadDeadline (now pingPeriod : Nat) : Nat :=
  now + pingPeriod * 6 / 5

/-- Oracle for one subscribe call: the two exchanges and the instant at
which the final setReadDeadline call samples time.Now(). -/
structure SubscribeOracle where
  auth : XchgOracle
  sub : XchgOracle
  tDone : Nat
  deriving DecidableEq

inductive SubResult where
  | ok
  | err (e : String)
  | pending
  deriving DecidableEq

/-- Configuration and connection state of the client (the AlpacaWebSocket
struct, minus the live handles, which the oracles stand in for). -/
structure WS where
  maxMessageSize : Int
  pingPeriod : Nat
  server : String
  apiKey : String
  apiSecret : String
  subscriptions : List String
  deriving DecidableEq

def nsPerSecond : Nat := 1000000000

/-- Model of NewAlpacaWebSocket: default maximum message size 2048000
bytes and ping period 10 seconds. -/
def NewAlpacaWebSocket (server apiKey apiSecret : String) (subs : List String) : WS :=
  ⟨2048000, 10 * nsPerSecond, server, apiKey, apiSecret, subs⟩

/-- Model of subscribe (part_000 lines 151-196): build the two requests,
log the full authentication request at info level, authenticate (failure
is logged with the returned response and propagated), log success,
subscribe (same policy), then arm the read deadline. -/
def subscribe (ws : WS) (o : SubscribeOracle) : List Ev × SubResult :=
  let aMsg := authMsg ws.apiKey ws.apiSecret
  let sMsg := subMsg ws.subscriptions
  let logA := Ev.logInfoS (authLogLine ws.apiKey ws.apiSecret)
  match exchangeMessage aMsg expectedAuthMarker o.auth with
  | (evs, XchgResult.ret resp (some e)) =>
      (logA :: evs ++ [Ev.logAuthFailure resp e], SubResult.err e)
  | (evs, XchgResult.pending) => (logA :: evs, SubResult.pending)
  | (evs, XchgResult.ret _ none) =>
    match exchangeMessage sMsg expectedSubMarker o.sub with
    | (evs2, XchgResult.ret resp2 (some e)) =>
        (logA :: evs ++ Ev.logAuthenticated :: evs2 ++ [Ev.logSubFailure resp2 e],
         SubResult.err e)
    | (evs2, XchgResult.pending) =>
        (logA :: evs ++ Ev.logAuthenticated :: evs2, SubResult.pending)
    | (evs2, XchgResult.ret _ none) =>
        (logA :: evs ++ Ev.logAuthenticated :: evs2
          ++ [Ev.logSubscribed, Ev.armDeadline (setReadDeadline o.tDone ws.pingPeriod)],
         SubResult.ok)

inductive MsgType where
  | text
  | binary
  deriving DecidableEq

/-- One result of conn.ReadMessage in the frame pump: a data frame (text or
binary), a control pong processed inside ReadMessage at instant t (gorilla
dispatches control frames to the installed handlers while reading), or a
read error. -/
inductive ReadResult where
  | data (tt : MsgType) (pp : Bytes)
  | pong (t : Nat)
  | readErr (e : String)
  deriving DecidableEq

/-- Model of receiveMessages (part_000 lines 102-119): read forever; a
pong re-arms the read deadline through the installed handler; a read error
is logged, sent to the error channel and ends the task; a binary frame is
logged as a warning and dropped; a text frame payload is sent to the frame
channel. -/
def receiveMessages (pingPeriod : Nat) : List ReadResult → List Ev
  | [] => []
  | ReadResult.pong t :: rest =>
      Ev.armDeadline (setReadDeadline t pingPeriod) :: receiveMessages pingPeriod rest
  | ReadResult.readErr e :: _ => [Ev.logReadFailure e, Ev.sendErr e]
  | ReadResult.data MsgType.binary _ :: rest =>
      Ev.logWarnBinary :: receiveMessages pingPeriod rest
  | ReadResult.data MsgType.text pp :: rest =>
      Ev.sendOut pp :: receiveMessages pingPeriod rest

/-- One scheduling decision for the select loop of listen: the ticker
fires (with the result of the WriteControl ping), or the loop receives
from the frame channel, or from the error channel. -/
inductive Sched where
  | tick (writeRes : Option String)
  | recvFrame
  | recvErrSignal
  deriving DecidableEq

/-- Outcome of the select loop: a return with an error, or the observation
was cut with the loop still running (the supplied schedule ended, or the
selected branch had nothing ready). -/
inductive LoopExit where
  | ret (e : String)
  | cut
  deriving DecidableEq

def isSendOut : Ev → Bool
  | Ev.sendOut _ => true
  | _ => false

/-- Effect of one autonomously performed pump event on the buffered error
channel: a send into the capacity-one channel fills its slot. -/
def slotUpd : Ev → Option String → Option String
  | Ev.sendErr e, _ => some e
  | _, slot => slot

/-- Autonomous progress of the frame pump between two select steps: the
pump runs ahead (logging, re-arming the deadline, depositing its error
into the buffered channel) until it blocks on a send into the unbuffered
frame channel.  Returns the events performed, the remaining pump events,
and the error-channel slot. -/
def flushPump : List Ev → Option String → List Ev × List Ev × Option String
  | [], slot => ([], [], slot)
  | e :: rest, slot =>
    if isSendOut e then ([], e :: rest, slot)
    else
      let r := flushPump rest (slotUpd e slot)
      (e :: r.1, r.2.1, r.2.2)

/-- Model of the select loop of listen (part_000 lines 81-94), driven by a
schedule.  Receiving the pump error returns it; a ticker fire writes a
ping, a ping write failure is logged and returned; receiving a frame
forwards the payload to the output channel. -/
def streamLoop : List Ev → Option String → List Sched → List Ev × LoopExit
  | pump, slot, [] => ((flushPump pump slot).1, LoopExit.cut)
  | pump, slot, s :: rest =>
    let f := flushPump pump slot
    match s with
    | Sched.tick none =>
        let r := streamLoop f.2.1 f.2.2 rest
        (f.1 ++ Ev.pingSent :: r.1, r.2)
    | Sched.tick (some e) => (f.1 ++ [Ev.logPingFailure e], LoopExit.ret e)
    | Sched.recvErrSignal =>
        match f.2.2 with
        | some e => (f.1, LoopExit.ret e)
        | none => (f.1, LoopExit.cut)
    | Sched.recvFrame =>
        match f.2.1 with
        | Ev.sendOut pp :: pend' =>
            let r := streamLoop pend' f.2.2 rest
            (f.1 ++ Ev.sendOut pp :: Ev.output pp :: r.1, r.2)
        | _ => (f.1, LoopExit.cut)

/-- Oracle for one listen call: the dial outcome, the handshake oracle,
the frame pump reads, and the select schedule. -/
structure ListenOracle where
  dial : DialOutcome
  handshake : SubscribeOracle
  frames : List ReadResult
  sched : List Sched
  deriving DecidableEq

inductive ListenResult where
  | panicked
  | fail (e : String)
  | running
  deriving DecidableEq

/-- Whether connect left the client holding a live connection. -/
def connAcquired : ConnectResult → Bool
  | ConnectResult.ok => true
  | _ => false

/-- Model of listen (part_000 lines 47-95): connect (failure is logged and
returned with no connection held); register the deferred close of the
connection; set the read limit and the pong handler; subscribe (failure
returns after the deferred close); start the frame pump and the ticker and
run the select loop; every return path after a successful dial stops the
ticker and closes the connection exactly once via the deferred calls. -/
def listen (ws : WS) (o : ListenOracle) : List Ev × ListenResult :=
  match connect o.dial with
  | (ConnectResult.panicked, evs) => (evs, ListenResult.panicked)
  | (ConnectResult.fail e, evs) =>
      (evs ++ [Ev.logConnectFailure e], ListenResult.fail e)
  | (ConnectResult.ok, evs) =>
    let pre := evs ++ [Ev.setReadLimit ws.maxMessageSize, Ev.setPongHandler]
    match subscribe ws o.handshake with
    | (sevs, SubResult.err e) => (pre ++ sevs ++ [Ev.closeConn], ListenResult.fail e)
    | (sevs, SubResult.pending) => (pre ++ sevs, ListenResult.running)
    | (sevs, SubResult.ok) =>
      let pump := receiveMessages ws.pingPeriod o.frames
      match streamLoop pump none o.sched with
      | (levs, LoopExit.ret e) =>
          (pre ++ sevs ++ levs ++ [Ev.stopTicker, Ev.closeConn], ListenResult.fail e)
      | (levs, LoopExit.cut) => (pre ++ sevs ++ levs, ListenResult.running)

/-- Payloads forwarded to the output channel, in trace order. -/
def outputs (evs : List Ev) : List Bytes :=
  evs.filterMap fun e => match e with | Ev.output pp => some pp | _ => none

/-- Payloads sent by the pump into the frame channel, in trace order. -/
def outSends (evs : List Ev) : List Bytes :=
  evs.filterMap fun e => match e with | Ev.sendOut pp => some pp | _ => none

/-- Errors sent by the pump into the buffered error channel. -/
def errSends (evs : List Ev) : List String :=
  evs.filterMap fun e => match e with | Ev.sendErr x => some x | _ => none

/-- Deadline values passed to the transport by setReadDeadline calls. -/
def armValues (evs : List Ev) : List Nat :=
  evs.filterMap fun e => match e with | Ev.armDeadline d => some d | _ => none

/-- Number of closes of the connection in a trace. -/
def closeCount (evs : List Ev) : Nat :=
  (evs.filterMap fun e => match e with | Ev.closeConn => some 0 | _ => none).length

/-- Payloads of the text frames among the reads, in receive order, up to
the first read error (spec side of the forwarding claims). -/
def textPayloads : List ReadResult → List Bytes
  | [] => []
  | ReadResult.readErr _ :: _ => []
  | ReadResult.data MsgType.text pp :: rest => pp :: textPayloads rest
  | _ :: rest => textPayloads rest

/-- Arrival instants of the pongs among the reads, up to the first read
error (spec side of the deadline claims). -/
def pongTimes : List ReadResult → List Nat
  | [] => []
  | ReadResult.readErr _ :: _ => []
  | ReadResult.pong t :: rest => t :: pongTimes rest
  | _ :: rest => pongTimes rest

/-- Schedule that receives every pump send as soon as it is ready and
never lets the ticker fire: complete, failure-free delivery. -/
def completeSched : List Ev → List Sched
  | [] => []
  | Ev.sendOut _ :: r => Sched.recvFrame :: completeSched r
  | Ev.sendErr _ :: r => Sched.recvErrSignal :: completeSched r
  | _ :: r => completeSched r

/-- Streaming-phase trace when every pump send is delivered: each text
frame appears as its send followed by its forwarding. -/
def deliveredTrace (p : Nat) : List ReadResult → List Ev
  | [] => []
  | ReadResult.pong t :: rest =>
      Ev.armDeadline (setReadDeadline t p) :: deliveredTrace p rest
  | ReadResult.data MsgType.binary _ :: rest => Ev.logWarnBinary :: deliveredTrace p rest
  | ReadResult.data MsgType.text pp :: rest =>
      Ev.sendOut pp :: Ev.output pp :: deliveredTrace p rest
  | ReadResult.readErr e :: _ => [Ev.logReadFailure e, Ev.sendErr e]

/-- Exit of the select loop under complete delivery: the first read error,
if any, is returned. -/
def exitOf : List ReadResult → LoopExit
  | [] => LoopExit.cut
  | ReadResult.readErr e :: _ => LoopExit.ret e
  | _ :: rest => exitOf rest

/-- Capacity of the error channel (the literal in the make call of listen,
part_000 line 76). -/
def errorChanCapacity : Nat := 1

/-- Whether a pump trace performs no event after its first error send. -/
def noSendsAfterErr : List Ev → Bool
  | [] => true
  | Ev.sendErr _ :: rest => rest.isEmpty
  | _ :: rest => noSendsAfterErr rest

/-- Modelled from the spec: the canonical subscription topic list is built
by the configuration collaborator (Subscription.AsCanonical, not part of
the given sources); per the spec it is an ordered, deduplicated list of
subscription identifiers such as Q.VOO or T.AAPL.  A canonical topic is
printable ASCII without spaces, double quotes or backslashes. -/
def canonicalTopic (t : String) : Prop :=
  ∀ c ∈ t.toList, 0x20 < c.toNat ∧ c.toNat < 0x7f ∧ c ≠ '"' ∧ c ≠ '\\'

instance (t : String) : Decidable (canonicalTopic t) := by
  unfold canonicalTopic; infer_instance

/-! Supporting lemmas about strings and substring containment. -/

theorem str_data_append (a b : String) : (a ++ b).data = a.data ++ b.data := by
  cases a; cases b; rfl

theorem isPrefixOf_self_append : ∀ (s c : List Char), s.isPrefixOf (s ++ c) = true
  | [], _ => by simp [List.isPrefixOf]
  | x :: xs, c => by
    simp only [List.cons_append, List.isPrefixOf, Bool.and_eq_true, beq_self_eq_true,
      true_and]
    exact isPrefixOf_self_append xs c

theorem tails_any_mid (s : List Char) :
    ∀ (a c : List Char), ((a ++ (s ++ c)).tails.any fun t => s.isPrefixOf t) = true := by
  intro a
  induction a with
  | nil =>
    intro c
    rw [List.any_eq_true]
    exact ⟨s ++ c, (List.mem_tails _ _).2 List.suffix_rfl, isPrefixOf_self_append s c⟩
  | cons x xs ih =>
    intro c
    rw [List.cons_append, List.tails_cons, List.any_cons]
    rw [Bool.or_eq_true]
    exact Or.inr (ih c)

theorem goContains_mid (a s b : String) : goContains (a ++ (s ++ b)) s = true := by
  have hd : (a ++ (s ++ b)).toList = a.toList ++ (s.toList ++ b.toList) := by
    show (a ++ (s ++ b)).data = a.data ++ (s.data ++ b.data)
    rw [str_data_append, str_data_append]
  rw [goContains, hd]
  exact tails_any_mid s.toList a.toList b.toList

theorem goContains_parts (a s b : String) : goContains (a ++ s ++ b) s = true := by
  have h : a ++ s ++ b = a ++ (s ++ b) := by
    apply String.ext
    rw [str_data_append, str_data_append, str_data_append, str_data_append,
      List.append_assoc]
  rw [h]
  exact goContains_mid a s b

theorem goContains_tail (a s : String) : goContains (a ++ s) s = true := by
  have hd : (a ++ s).toList = a.toList ++ (s.toList ++ []) := by
    show (a ++ s).data = a.data ++ (s.data ++ [])
    rw [str_data_append, List.append_nil]
  rw [goContains, hd]
  exact tails_any_mid s.toList a.toList []

/-! Supporting lemmas about the handshake exchange. -/

theorem xchgLoop_ret_none (expect : String) :
    ∀ reads r, (xchgLoop expect reads).2 = XchgResult.ret r none →
      goContains r expect = true := by
  intro reads
  induction reads with
  | nil => intro r h; simp [xchgLoop] at h
  | cons x rest ih =>
    cases x with
    | readErr e => intro r h; simp [xchgLoop] at h
    | readOk pp =>
      intro r h
      by_cases hgc : goContains pp expect = true
      · rw [xchgLoop] at h
        simp only [hgc, if_true] at h
        obtain ⟨h1, _⟩ := XchgResult.ret.inj h
        exact h1 ▸ hgc
      · rw [xchgLoop] at h
        simp only [hgc, Bool.false_eq_true, if_false] at h
        exact ih r h

theorem xchgLoop_first_err (expect e : String) (rest : List XchgRead) :
    ∀ pre, (∀ x ∈ pre, ∃ pp, x = XchgRead.readOk pp ∧ goContains pp expect = false) →
      (xchgLoop expect (pre ++ XchgRead.readErr e :: rest)).2
        = XchgResult.ret "" (some e) := by
  intro pre
  induction pre with
  | nil => intro _; simp [xchgLoop]
  | cons x pre ih =>
    intro hx
    obtain ⟨pp, hx1, hgc⟩ := hx x (by simp)
    subst hx1
    rw [List.cons_append, xchgLoop]
    simp only [hgc, Bool.false_eq_true, if_false]
    exact ih fun y hy => hx y (by simp [hy])

theorem xchgLoop_resp_empty (expect : String) :
    ∀ reads resp e, (xchgLoop expect reads).2 = XchgResult.ret resp (some e) →
      resp = "" ∧ ∃ pre rest, reads = pre ++ XchgRead.readErr e :: rest := by
  intro reads
  induction reads with
  | nil => intro resp e h; simp [xchgLoop] at h
  | cons x rest ih =>
    cases x with
    | readErr e' =>
      intro resp e h
      rw [xchgLoop] at h
      obtain ⟨h1, h2⟩ := XchgResult.ret.inj h
      obtain rfl := Option.some.inj h2
      exact ⟨h1.symm, [], rest, rfl⟩
    | readOk pp =>
      intro resp e h
      by_cases hgc : goContains pp expect = true
      · rw [xchgLoop] at h
        simp only [hgc, if_true] at h
        obtain ⟨_, h2⟩ := XchgResult.ret.inj h
        exact absurd h2 (by simp)
      · rw [xchgLoop] at h
        simp only [hgc, Bool.false_eq_true, if_false] at h
        obtain ⟨h1, pre, rest', h2⟩ := ih resp e h
        exact ⟨h1, XchgRead.readOk pp :: pre, rest', by simp [h2]⟩

theorem exchangeMessage_trace_head (send expect : String) (o : XchgOracle) :
    ∃ t, (exchangeMessage send expect o).1 = Ev.writeMsg send :: t := by
  cases o with
  | mk w reads =>
    cases w with
    | some e => exact ⟨[], rfl⟩
    | none => exact ⟨(xchgLoop expect reads).1, rfl⟩

/-- C1.  The claim states that connect returns a value for every dial
outcome, in particular that a dial failure with no response yields an
error carrying only the underlying cause.  The code instead panics on
that input: the deferred body-close evaluates the nil response pointer.
This theorem evaluates the model at the failing input. -/
theorem connect_nil_response_panics :
    connect ⟨some "dial tcp: connection refused", none⟩
      = (ConnectResult.panicked, []) := rfl

/-- C2.  When the request write succeeds, the exchange step (i) returns
with no error only when the returned response contains the expected
marker, (ii) logs a non-matching response, discards it and behaves
exactly as a further read on the remaining responses, and (iii) returns
the first read error verbatim after any run of non-matching responses. -/
theorem exchangeMessage_marker_protocol (send expect : String) (o : XchgOracle)
    (h : o.writeErr = none) :
    (∀ r, (exchangeMessage send expect o).2 = XchgResult.ret r none →
        goContains r expect = true)
    ∧ (∀ pp rest, goContains pp expect = false →
        exchangeMessage send expect ⟨none, XchgRead.readOk pp :: rest⟩
          = (Ev.writeMsg send :: Ev.logInfoS (responseLogLine pp expect)
               :: (xchgLoop expect rest).1,
             (xchgLoop expect rest).2))
    ∧ (∀ pre e rest, o.reads = pre ++ XchgRead.readErr e :: rest →
        (∀ x ∈ pre, ∃ pp, x = XchgRead.readOk pp ∧ goContains pp expect = false) →
        (exchangeMessage send expect o).2 = XchgResult.ret "" (some e)) := by
  obtain ⟨w, reads⟩ := o
  simp only [XchgOracle.mk.injEq] at h
  subst h
  refine ⟨?_, ?_, ?_⟩
  · intro r hr
    rw [exchangeMessage] at hr
    exact xchgLoop_ret_none expect reads r hr
  · intro pp rest hgc
    simp only [exchangeMessage, xchgLoop, hgc, Bool.false_eq_true, if_false]
  · intro pre e rest hdec hpre
    rw [exchangeMessage]
    simp only at hdec
    subst hdec
    exact xchgLoop_first_err expect e rest pre hpre

/-- Witness for C2: a non-matching response followed by a closed
connection makes the authentication step return the read error. -/
theorem exchangeMessage_marker_protocol_w :
    (exchangeMessage (authMsg "AKID" "SECRET") expectedAuthMarker
        ⟨none, [XchgRead.readOk "hello", XchgRead.readErr "websocket: close 1006"]⟩).2
      = XchgResult.ret "" (some "websocket: close 1006") := by
  have h := exchangeMessage_marker_protocol (authMsg "AKID" "SECRET") expectedAuthMarker
    ⟨none, [XchgRead.readOk "hello", XchgRead.readErr "websocket: close 1006"]⟩ rfl
  refine h.2.2 [XchgRead.readOk "hello"] "websocket: close 1006" [] rfl ?_
  intro x hx
  simp only [List.mem_singleton] at hx
  subst hx
  exact ⟨"hello", rfl, by decide⟩

/-- C8 counterexample.  A handshake step that observes the rejection
response and then hits a read error returns the pair of the empty string
and the bare read error: the observed response body is not carried. -/
theorem exchangeMessage_drops_observed_response :
    (exchangeMessage (authMsg "AKID" "SEC") expectedAuthMarker
        ⟨none, [XchgRead.readOk "auth rejected", XchgRead.readErr "closed"]⟩).2
      = XchgResult.ret "" (some "closed")
    ∧ XchgResult.ret "" (some "closed")
        ≠ XchgResult.ret "auth rejected" (some "closed") := by
  exact ⟨by decide, by decide⟩

/-- C8 amended.  When a handshake step fails, the returned error is
exactly the underlying write or read error, and the returned response
string is empty: observed response bodies are logged but never carried in
the failure result. -/
theorem exchangeMessage_failure_carries_only_cause (send expect : String)
    (o : XchgOracle) (resp e : String)
    (h : (exchangeMessage send expect o).2 = XchgResult.ret resp (some e)) :
    resp = ""
    ∧ (o.writeErr = some e
        ∨ ∃ pre rest, o.reads = pre ++ XchgRead.readErr e :: rest) := by
  obtain ⟨w, reads⟩ := o
  cases w with
  | some we =>
    rw [exchangeMessage] at h
    obtain ⟨h1, h2⟩ := XchgResult.ret.inj h
    obtain rfl := Option.some.inj h2
    exact ⟨h1.symm, Or.inl rfl⟩
  | none =>
    rw [exchangeMessage] at h
    obtain ⟨h1, pre, rest, h2⟩ := xchgLoop_resp_empty expect reads resp e h
    exact ⟨h1, Or.inr ⟨pre, rest, h2⟩⟩

/-- Witness for the amended C8: a read error on the first read is
returned as the bare cause with an empty response. -/
theorem exchangeMessage_failure_carries_only_cause_w :
    ("" : String) = ""
    ∧ ((none : Option String) = some "eof"
        ∨ ∃ pre rest,
            [XchgRead.readErr "eof"] = pre ++ XchgRead.readErr "eof" :: rest) :=
  exchangeMessage_failure_carries_only_cause "m" "x"
    ⟨none, [XchgRead.readErr "eof"]⟩ "" "eof" (by decide)

/-- C6.  The frame pump sends at most one value into the error channel —
never more than the capacity of the channel, so the deposit cannot block even
with no receiver — and performs no further event after its first error
send. -/
theorem receiveMessages_single_error_signal (p : Nat) (frames : List ReadResult) :
    (errSends (receiveMessages p frames)).length ≤ errorChanCapacity
    ∧ noSendsAfterErr (receiveMessages p frames) = true := by
  induction frames with
  | nil => exact ⟨by simp [receiveMessages, errSends, errorChanCapacity], rfl⟩
  | cons x rest ih =>
    cases x with
    | pong t =>
      simpa [receiveMessages, errSends, noSendsAfterErr] using ih
    | readErr e =>
      simp [receiveMessages, errSends, noSendsAfterErr, errorChanCapacity]
    | data tt pp =>
      cases tt with
      | text => simpa [receiveMessages, errSends, noSendsAfterErr] using ih
      | binary => simpa [receiveMessages, errSends, noSendsAfterErr] using ih

/-! Supporting lemmas for the subscribe trace. -/

theorem subscribe_trace_head (ws : WS) (o : SubscribeOracle) :
    ∃ rest, (subscribe ws o).1
      = Ev.logInfoS (authLogLine ws.apiKey ws.apiSecret)
          :: Ev.writeMsg (authMsg ws.apiKey ws.apiSecret) :: rest := by
  obtain ⟨tA, hA⟩ := exchangeMessage_trace_head (authMsg ws.apiKey ws.apiSecret)
    expectedAuthMarker o.auth
  simp only [subscribe]
  rcases hx : exchangeMessage (authMsg ws.apiKey ws.apiSecret) expectedAuthMarker o.auth
    with ⟨evs, r⟩
  rw [hx] at hA
  simp only at hA
  subst hA
  cases r with
  | pending => exact ⟨tA, by simp⟩
  | ret resp errA =>
    cases errA with
    | some e => exact ⟨tA ++ [Ev.logAuthFailure resp e], by simp⟩
    | none =>
      rcases hy : exchangeMessage (subMsg ws.subscriptions) expectedSubMarker o.sub
        with ⟨evs2, r2⟩
      cases r2 with
      | pending => exact ⟨tA ++ Ev.logAuthenticated :: evs2, by simp⟩
      | ret resp2 errS =>
        cases errS with
        | some e =>
          exact ⟨tA ++ Ev.logAuthenticated :: evs2 ++ [Ev.logSubFailure resp2 e], by simp⟩
        | none =>
          exact ⟨tA ++ Ev.logAuthenticated :: evs2 ++ [Ev.logSubscribed,
            Ev.armDeadline (setReadDeadline o.tDone ws.pingPeriod)], by simp⟩

/-- C7.  Every subscribe call logs, at info level and before the request
is written to the transport, the full authentication request; the key and
secret occur verbatim inside the logged text, and the informational log
output depends on the credential pair. -/
theorem subscribe_logs_credentials (ws : WS) (o : SubscribeOracle) :
    (∃ rest, (subscribe ws o).1
        = Ev.logInfoS (authLogLine ws.apiKey ws.apiSecret)
            :: Ev.writeMsg (authMsg ws.apiKey ws.apiSecret) :: rest)
    ∧ goContains (authMsg ws.apiKey ws.apiSecret) ws.apiKey = true
    ∧ goContains (authMsg ws.apiKey ws.apiSecret) ws.apiSecret = true
    ∧ ∃ ws₁ ws₂ : WS, ∃ o' : SubscribeOracle,
        ws₁.apiSecret ≠ ws₂.apiSecret ∧ (subscribe ws₁ o').1 ≠ (subscribe ws₂ o').1 := by
  refine ⟨subscribe_trace_head ws o, ?_, ?_, ?_⟩
  · have h : authMsg ws.apiKey ws.apiSecret
        = "\x7b\"action\": \"auth\", \"key\": \""
            ++ (ws.apiKey ++ ("\", \"secret\": \"" ++ ws.apiSecret ++ "\"\x7d")) := by
      apply String.ext
      simp only [authMsg, str_data_append, List.append_assoc]
    rw [h]
    exact goContains_mid _ _ _
  · exact goContains_parts ("\x7b\"action\": \"auth\", \"key\": \"" ++ ws.apiKey
      ++ "\", \"secret\": \"") ws.apiSecret "\"\x7d"
  · exact ⟨⟨0, 0, "", "k", "a", []⟩, ⟨0, 0, "", "k", "b", []⟩,
      ⟨⟨some "e", []⟩, ⟨some "e", []⟩, 0⟩, by decide, by decide⟩

/-! Supporting lemmas for counting connection closes. -/

theorem closeCount_append (a b : List Ev) :
    closeCount (a ++ b) = closeCount a + closeCount b := by
  simp [closeCount, List.filterMap_append]

theorem closeCount_cons (e : Ev) (l : List Ev) :
    closeCount (e :: l) = closeCount [e] + closeCount l := by
  cases e <;> simp [closeCount, List.filterMap_cons, Nat.add_comm]

theorem closeCount_connect (d : DialOutcome) : closeCount (connect d).2 = 0 := by
  obtain ⟨de, hr⟩ := d
  cases hr <;> cases de <;> simp [connect, closeCount]

theorem closeCount_xchgLoop (expect : String) :
    ∀ reads, closeCount (xchgLoop expect reads).1 = 0 := by
  intro reads
  induction reads with
  | nil => simp [xchgLoop, closeCount]
  | cons x rest ih =>
    cases x with
    | readErr e => simp [xchgLoop, closeCount]
    | readOk pp =>
      by_cases hgc : goContains pp expect = true
      · simp [xchgLoop, hgc, closeCount]
      · simp only [xchgLoop, hgc, Bool.false_eq_true, if_false]
        rw [closeCount_cons, ih]
        simp [closeCount]

theorem closeCount_exchange (send expect : String) (o : XchgOracle) :
    closeCount (exchangeMessage send expect o).1 = 0 := by
  obtain ⟨w, reads⟩ := o
  cases w with
  | some e => simp [exchangeMessage, closeCount]
  | none =>
    simp only [exchangeMessage]
    rw [closeCount_cons, closeCount_xchgLoop]
    simp [closeCount]

theorem closeCount_subscribe (ws : WS) (o : SubscribeOracle) :
    closeCount (subscribe ws o).1 = 0 := by
  simp only [subscribe]
  rcases hx : exchangeMessage (authMsg ws.apiKey ws.apiSecret) expectedAuthMarker o.auth
    with ⟨evs, r⟩
  have hevs : closeCount evs = 0 := by
    have h := closeCount_exchange (authMsg ws.apiKey ws.apiSecret) expectedAuthMarker o.auth
    rwa [hx] at h
  rcases hy : exchangeMessage (subMsg ws.subscriptions) expectedSubMarker o.sub
    with ⟨evs2, r2⟩
  have hevs2 : closeCount evs2 = 0 := by
    have h := closeCount_exchange (subMsg ws.subscriptions) expectedSubMarker o.sub
    rwa [hy] at h
  cases r with
  | pending =>
    dsimp only
    rw [closeCount_cons, hevs]
    simp [closeCount]
  | ret resp errA =>
    cases errA with
    | some e =>
      dsimp only
      rw [closeCount_append, closeCount_cons, hevs]
      simp [closeCount]
    | none =>
      cases r2 with
      | pending =>
        dsimp only
        rw [closeCount_append, closeCount_cons,
          show closeCount (Ev.logAuthenticated :: evs2)
              = closeCount [Ev.logAuthenticated] + closeCount evs2
            from closeCount_cons _ _, hevs, hevs2]
        simp [closeCount]
      | ret resp2 errS =>
        cases errS with
        | some e =>
          dsimp only
          rw [closeCount_append, closeCount_append, closeCount_cons,
            show closeCount (Ev.logAuthenticated :: evs2)
                = closeCount [Ev.logAuthenticated] + closeCount evs2
              from closeCount_cons _ _, hevs, hevs2]
          simp [closeCount]
        | none =>
          dsimp only
          rw [closeCount_append, closeCount_append, closeCount_cons,
            show closeCount (Ev.logAuthenticated :: evs2)
                = closeCount [Ev.logAuthenticated] + closeCount evs2
              from closeCount_cons _ _, hevs, hevs2]
          simp [closeCount]

theorem closeCount_receiveMessages (p : Nat) :
    ∀ frames, closeCount (receiveMessages p frames) = 0 := by
  intro frames
  induction frames with
  | nil => rfl
  | cons x rest ih =>
    cases x with
    | pong t => rw [receiveMessages, closeCount_cons, ih]; simp [closeCount]
    | readErr e => simp [receiveMessages, closeCount]
    | data tt pp =>
      cases tt with
      | text => rw [receiveMessages, closeCount_cons, ih]; simp [closeCount]
      | binary => rw [receiveMessages, closeCount_cons, ih]; simp [closeCount]

theorem flushPump_decomp : ∀ (pump : List Ev) (slot : Option String),
    (flushPump pump slot).1 ++ (flushPump pump slot).2.1 = pump := by
  intro pump
  induction pump with
  | nil => intro slot; rfl
  | cons e rest ih =>
    intro slot
    by_cases h : isSendOut e = true
    · simp [flushPump, h]
    · simp only [flushPump, h, Bool.false_eq_true, if_false, List.cons_append,
        List.cons.injEq, true_and]
      exact ih (slotUpd e slot)

theorem isSendOut_eq (e : Ev) (h : isSendOut e = true) : ∃ pp, e = Ev.sendOut pp := by
  cases e <;> simp [isSendOut] at h
  exact ⟨_, rfl⟩

theorem flushPump_snd_shape : ∀ (pump : List Ev) (slot : Option String),
    (flushPump pump slot).2.1 = []
      ∨ ∃ pp t, (flushPump pump slot).2.1 = Ev.sendOut pp :: t := by
  intro pump
  induction pump with
  | nil => intro slot; exact Or.inl rfl
  | cons e rest ih =>
    intro slot
    by_cases h : isSendOut e = true
    · obtain ⟨pp, rfl⟩ := isSendOut_eq e h
      exact Or.inr ⟨pp, rest, by simp [flushPump, isSendOut]⟩
    · simp only [flushPump, h, Bool.false_eq_true, if_false]
      exact ih (slotUpd e slot)

theorem closeCount_flush_parts (pump : List Ev) (slot : Option String) :
    closeCount (flushPump pump slot).1 + closeCount (flushPump pump slot).2.1
      = closeCount pump := by
  rw [← closeCount_append, flushPump_decomp]

theorem closeCount_streamLoop : ∀ (sched : List Sched) (pump : List Ev)
    (slot : Option String), closeCount pump = 0 →
    closeCount (streamLoop pump slot sched).1 = 0 := by
  intro sched
  induction sched with
  | nil =>
    intro pump slot hp
    simp only [streamLoop]
    have h := closeCount_flush_parts pump slot
    omega
  | cons s rest ih =>
    intro pump slot hp
    have hparts := closeCount_flush_parts pump slot
    have h1 : closeCount (flushPump pump slot).1 = 0 := by omega
    have h2 : closeCount (flushPump pump slot).2.1 = 0 := by omega
    cases s with
    | tick w =>
      cases w with
      | none =>
        simp only [streamLoop]
        rw [closeCount_append, h1, closeCount_cons, ih _ _ h2]
        simp [closeCount]
      | some e =>
        simp only [streamLoop]
        rw [closeCount_append, h1]
        simp [closeCount]
    | recvErrSignal =>
      simp only [streamLoop]
      rcases hslot : (flushPump pump slot).2.2 with _ | e <;> dsimp only <;> exact h1
    | recvFrame =>
      simp only [streamLoop]
      rcases flushPump_snd_shape pump slot with hnil | ⟨pp, t, hcons⟩
      · rw [hnil]
        dsimp only
        exact h1
      · have ht : closeCount t = 0 := by
          rw [hcons, closeCount_cons] at h2
          simpa [closeCount] using h2
        have hr := ih t (flushPump pump slot).2.2 ht
        rw [hcons]
        dsimp only
        rw [closeCount_append, h1]
        simpa [closeCount] using hr

/-- C4.  After a successful dial the connection is closed exactly once on
every returning exit path of listen (handshake failure, pump read error,
ping write failure), and never more than once; when the dial fails no
connection is acquired and no close is performed. -/
theorem listen_closes_connection_once (ws : WS) (o : ListenOracle) :
    ((connect o.dial).1 = ConnectResult.ok →
        (∀ e, (listen ws o).2 = ListenResult.fail e → closeCount (listen ws o).1 = 1)
        ∧ closeCount (listen ws o).1 ≤ 1)
    ∧ (connAcquired (connect o.dial).1 = false → closeCount (listen ws o).1 = 0) := by
  rcases hc : connect o.dial with ⟨cr, evs⟩
  have hevs : closeCount evs = 0 := by
    have h := closeCount_connect o.dial
    rwa [hc] at h
  cases cr with
  | panicked =>
    constructor
    · intro hok; exact absurd hok (by simp)
    · intro _
      simp only [listen, hc]
      exact hevs
  | fail e =>
    constructor
    · intro hok; exact absurd hok (by simp)
    · intro _
      simp only [listen, hc]
      rw [closeCount_append, hevs]
      simp [closeCount]
  | ok =>
    refine ⟨fun _ => ?_, ?_⟩
    swap
    · intro habs
      exact absurd habs (by simp [connAcquired])
    rcases hs : subscribe ws o.handshake with ⟨sevs, sr⟩
    have hsevs : closeCount sevs = 0 := by
      have h := closeCount_subscribe ws o.handshake
      rwa [hs] at h
    have hpre : closeCount (evs ++ [Ev.setReadLimit ws.maxMessageSize, Ev.setPongHandler])
        = 0 := by
      rw [closeCount_append, hevs]
      simp [closeCount]
    cases sr with
    | err e =>
      constructor
      · intro e' _
        simp only [listen, hc, hs]
        rw [closeCount_append, closeCount_append, hpre, hsevs]
        simp [closeCount]
      · simp only [listen, hc, hs]
        rw [closeCount_append, closeCount_append, hpre, hsevs]
        simp [closeCount]
    | pending =>
      constructor
      · intro e' habs
        simp [listen, hc, hs] at habs
      · simp only [listen, hc, hs]
        rw [closeCount_append, hpre, hsevs]
        simp
    | ok =>
      rcases hl : streamLoop (receiveMessages ws.pingPeriod o.frames) none o.sched
        with ⟨levs, ex⟩
      have hlevs : closeCount levs = 0 := by
        have h := closeCount_streamLoop o.sched (receiveMessages ws.pingPeriod o.frames)
          none (closeCount_receiveMessages ws.pingPeriod o.frames)
        rwa [hl] at h
      cases ex with
      | ret e =>
        constructor
        · intro e' _
          simp only [listen, hc, hs, hl]
          rw [closeCount_append, closeCount_append, closeCount_append, hpre, hsevs, hlevs]
          simp [closeCount]
        · simp only [listen, hc, hs, hl]
          rw [closeCount_append, closeCount_append, closeCount_append, hpre, hsevs, hlevs]
          simp [closeCount]
      | cut =>
        constructor
        · intro e' habs
          simp [listen, hc, hs, hl] at habs
        · simp only [listen, hc, hs, hl]
          rw [closeCount_append, closeCount_append, hpre, hsevs, hlevs]
          simp

/-- Witness for C4: a successful dial followed by a handshake read error
produces a returning listen call whose trace closes the connection exactly
once. -/
theorem listen_closes_connection_once_w :
    closeCount (listen (NewAlpacaWebSocket "wss://srv" "k" "sec" ["Q.VOO"])
        ⟨⟨none, some ⟨101, ""⟩⟩, ⟨⟨none, [XchgRead.readErr "eof"]⟩, ⟨none, []⟩, 0⟩,
         [], []⟩).1 = 1 := by
  have h := listen_closes_connection_once (NewAlpacaWebSocket "wss://srv" "k" "sec" ["Q.VOO"])
    ⟨⟨none, some ⟨101, ""⟩⟩, ⟨⟨none, [XchgRead.readErr "eof"]⟩, ⟨none, []⟩, 0⟩, [], []⟩
  exact (h.1 (by decide)).1 "eof" (by decide)

/-- C9.  A dial failure in which the remote returned a response makes
listen return the connection-failure error embedding the status code and
the body, and the response body is released. -/
theorem listen_dial_failure_error (ws : WS) (o : ListenOracle) (e : String) (r : HResp)
    (h : o.dial = ⟨some e, some r⟩) :
    (listen ws o).2 = ListenResult.fail (connectFailureMsg e r)
    ∧ goContains (connectFailureMsg e r) (toString r.statusCode) = true
    ∧ goContains (connectFailureMsg e r) r.body = true
    ∧ Ev.closeBody ∈ (listen ws o).1 := by
  have hc : connect o.dial = (ConnectResult.fail (connectFailureMsg e r), [Ev.closeBody]) := by
    rw [h]; rfl
  refine ⟨by simp [listen, hc], ?_, ?_, by simp [listen, hc]⟩
  · have hshape : connectFailureMsg e r
        = ("[alpaca] connection failure, err: " ++ e ++ ", status_code: ")
            ++ toString r.statusCode ++ (", body: " ++ r.body) := by
      apply String.ext
      simp only [connectFailureMsg, str_data_append, List.append_assoc]
    rw [hshape]
    exact goContains_parts _ _ _
  · exact goContains_tail ("[alpaca] connection failure, err: " ++ e ++ ", status_code: "
      ++ toString r.statusCode ++ ", body: ") r.body

/-- Witness for C9: a dial rejected with HTTP 403 and body forbidden
yields a listen error embedding status 403 and body forbidden. -/
theorem listen_dial_failure_error_w :
    (listen (NewAlpacaWebSocket "wss://srv" "k" "s" ["Q.VOO"])
        ⟨⟨some "websocket: bad handshake", some ⟨403, "forbidden"⟩⟩,
         ⟨⟨none, []⟩, ⟨none, []⟩, 0⟩, [], []⟩).2
      = ListenResult.fail
          (connectFailureMsg "websocket: bad handshake" ⟨403, "forbidden"⟩)
    ∧ goContains (connectFailureMsg "websocket: bad handshake" ⟨403, "forbidden"⟩)
        (toString (403 : Int)) = true
    ∧ goContains (connectFailureMsg "websocket: bad handshake" ⟨403, "forbidden"⟩)
        "forbidden" = true := by
  have h := listen_dial_failure_error (NewAlpacaWebSocket "wss://srv" "k" "s" ["Q.VOO"])
    ⟨⟨some "websocket: bad handshake", some ⟨403, "forbidden"⟩⟩,
     ⟨⟨none, []⟩, ⟨none, []⟩, 0⟩, [], []⟩ "websocket: bad handshake" ⟨403, "forbidden"⟩ rfl
  exact ⟨h.1, h.2.1, h.2.2.1⟩

/-! Supporting lemmas for extracting forwarded payloads and deadline
values from traces. -/

theorem outputs_nil : outputs [] = [] := rfl

theorem outputs_cons (e : Ev) (l : List Ev) :
    outputs (e :: l)
      = (match e with | Ev.output pp => [pp] | _ => []) ++ outputs l := by
  cases e <;> simp [outputs, List.filterMap_cons]

theorem outputs_append (a b : List Ev) : outputs (a ++ b) = outputs a ++ outputs b := by
  simp [outputs]

theorem outSends_cons (e : Ev) (l : List Ev) :
    outSends (e :: l)
      = (match e with | Ev.sendOut pp => [pp] | _ => []) ++ outSends l := by
  cases e <;> simp [outSends, List.filterMap_cons]

theorem outSends_append (a b : List Ev) :
    outSends (a ++ b) = outSends a ++ outSends b := by
  simp [outSends]

theorem armValues_nil : armValues [] = [] := rfl

theorem armValues_cons (e : Ev) (l : List Ev) :
    armValues (e :: l)
      = (match e with | Ev.armDeadline d => [d] | _ => []) ++ armValues l := by
  cases e <;> simp [armValues, List.filterMap_cons]

theorem armValues_append (a b : List Ev) :
    armValues (a ++ b) = armValues a ++ armValues b := by
  simp [armValues]

theorem outputs_nil_of (l : List Ev) (h : ∀ pp, Ev.output pp ∉ l) : outputs l = [] := by
  induction l with
  | nil => rfl
  | cons e rest ih =>
    have hr : ∀ pp, Ev.output pp ∉ rest := fun pp hpp => h pp (List.mem_cons_of_mem _ hpp)
    rw [outputs_cons, ih hr]
    cases e
    case output pp => exact (h pp (List.mem_cons_self _ _)).elim
    all_goals rfl

theorem outputs_xchgLoop (expect : String) :
    ∀ reads, outputs (xchgLoop expect reads).1 = [] := by
  intro reads
  induction reads with
  | nil => rfl
  | cons x rest ih =>
    cases x with
    | readErr e => rfl
    | readOk pp =>
      by_cases hgc : goContains pp expect = true
      · simp [xchgLoop, hgc, outputs]
      · simp only [xchgLoop, hgc, Bool.false_eq_true, if_false]
        rw [outputs_cons, ih]
        rfl

theorem outputs_exchange (send expect : String) (o : XchgOracle) :
    outputs (exchangeMessage send expect o).1 = [] := by
  obtain ⟨w, reads⟩ := o
  cases w with
  | some e => rfl
  | none =>
    simp only [exchangeMessage]
    rw [outputs_cons, outputs_xchgLoop]
    rfl

theorem outputs_subscribe (ws : WS) (o : SubscribeOracle) :
    outputs (subscribe ws o).1 = [] := by
  simp only [subscribe]
  rcases hx : exchangeMessage (authMsg ws.apiKey ws.apiSecret) expectedAuthMarker o.auth
    with ⟨evs, r⟩
  have hevs : outputs evs = [] := by
    have h := outputs_exchange (authMsg ws.apiKey ws.apiSecret) expectedAuthMarker o.auth
    rwa [hx] at h
  rcases hy : exchangeMessage (subMsg ws.subscriptions) expectedSubMarker o.sub
    with ⟨evs2, r2⟩
  have hevs2 : outputs evs2 = [] := by
    have h := outputs_exchange (subMsg ws.subscriptions) expectedSubMarker o.sub
    rwa [hy] at h
  cases r with
  | pending =>
    dsimp only
    rw [outputs_cons, hevs]
    rfl
  | ret resp errA =>
    cases errA with
    | some e =>
      dsimp only
      rw [outputs_append, outputs_cons, hevs]
      rfl
    | none =>
      cases r2 with
      | pending =>
        dsimp only
        rw [outputs_append, outputs_cons, hevs,
          show outputs (Ev.logAuthenticated :: evs2)
              = (match Ev.logAuthenticated with | Ev.output pp => [pp] | _ => [])
                  ++ outputs evs2
            from outputs_cons _ _, hevs2]
        rfl
      | ret resp2 errS =>
        cases errS with
        | some e =>
          dsimp only
          rw [outputs_append, outputs_append, outputs_cons, hevs,
            show outputs (Ev.logAuthenticated :: evs2)
                = (match Ev.logAuthenticated with | Ev.output pp => [pp] | _ => [])
                    ++ outputs evs2
              from outputs_cons _ _, hevs2]
          rfl
        | none =>
          dsimp only
          rw [outputs_append, outputs_append, outputs_cons, hevs,
            show outputs (Ev.logAuthenticated :: evs2)
                = (match Ev.logAuthenticated with | Ev.output pp => [pp] | _ => [])
                    ++ outputs evs2
              from outputs_cons _ _, hevs2]
          rfl

theorem outputs_connect (d : DialOutcome) : outputs (connect d).2 = [] := by
  obtain ⟨de, hr⟩ := d
  cases hr <;> cases de <;> rfl

theorem armValues_xchgLoop (expect : String) :
    ∀ reads, armValues (xchgLoop expect reads).1 = [] := by
  intro reads
  induction reads with
  | nil => rfl
  | cons x rest ih =>
    cases x with
    | readErr e => rfl
    | readOk pp =>
      by_cases hgc : goContains pp expect = true
      · simp [xchgLoop, hgc, armValues]
      · simp only [xchgLoop, hgc, Bool.false_eq_true, if_false]
        rw [armValues_cons, ih]
        rfl

theorem armValues_exchange (send expect : String) (o : XchgOracle) :
    armValues (exchangeMessage send expect o).1 = [] := by
  obtain ⟨w, reads⟩ := o
  cases w with
  | some e => rfl
  | none =>
    simp only [exchangeMessage]
    rw [armValues_cons, armValues_xchgLoop]
    rfl

theorem armValues_subscribe_ok (ws : WS) (o : SubscribeOracle)
    (h : (subscribe ws o).2 = SubResult.ok) :
    armValues (subscribe ws o).1 = [setReadDeadline o.tDone ws.pingPeriod] := by
  simp only [subscribe] at h ⊢
  rcases hx : exchangeMessage (authMsg ws.apiKey ws.apiSecret) expectedAuthMarker o.auth
    with ⟨evs, r⟩
  rw [hx] at h
  have hevs : armValues evs = [] := by
    have h1 := armValues_exchange (authMsg ws.apiKey ws.apiSecret) expectedAuthMarker o.auth
    rwa [hx] at h1
  rcases hy : exchangeMessage (subMsg ws.subscriptions) expectedSubMarker o.sub
    with ⟨evs2, r2⟩
  rw [hy] at h
  have hevs2 : armValues evs2 = [] := by
    have h1 := armValues_exchange (subMsg ws.subscriptions) expectedSubMarker o.sub
    rwa [hy] at h1
  cases r with
  | pending => exact absurd h (by simp)
  | ret resp errA =>
    cases errA with
    | some e => exact absurd h (by simp)
    | none =>
      cases r2 with
      | pending => exact absurd h (by simp)
      | ret resp2 errS =>
        cases errS with
        | some e => exact absurd h (by simp)
        | none =>
          dsimp only
          rw [armValues_append, armValues_append, armValues_cons, hevs,
            show armValues (Ev.logAuthenticated :: evs2)
                = (match Ev.logAuthenticated with | Ev.armDeadline d => [d] | _ => [])
                    ++ armValues evs2
              from armValues_cons _ _, hevs2]
          rfl

theorem armValues_connect (d : DialOutcome) : armValues (connect d).2 = [] := by
  obtain ⟨de, hr⟩ := d
  cases hr <;> cases de <;> rfl

/-! Supporting lemmas about the frame pump and the select loop. -/

theorem outSends_receiveMessages (p : Nat) :
    ∀ frames, outSends (receiveMessages p frames) = textPayloads frames := by
  intro frames
  induction frames with
  | nil => rfl
  | cons x rest ih =>
    cases x with
    | pong t =>
      rw [receiveMessages, outSends_cons, ih]
      rfl
    | readErr e => rfl
    | data tt pp =>
      cases tt with
      | text =>
        rw [receiveMessages, outSends_cons, ih]
        rfl
      | binary =>
        rw [receiveMessages, outSends_cons, ih]
        rfl

theorem no_output_receiveMessages (p : Nat) :
    ∀ frames pp, Ev.output pp ∉ receiveMessages p frames := by
  intro frames
  induction frames with
  | nil => intro pp h; exact absurd h (List.not_mem_nil _)
  | cons x rest ih =>
    cases x with
    | pong t =>
      intro pp h
      rw [receiveMessages, List.mem_cons] at h
      rcases h with h | h
      · exact absurd h (by simp)
      · exact ih pp h
    | readErr e =>
      intro pp h
      simp [receiveMessages] at h
    | data tt qq =>
      cases tt with
      | text =>
        intro pp h
        rw [receiveMessages, List.mem_cons] at h
        rcases h with h | h
        · exact absurd h (by simp)
        · exact ih pp h
      | binary =>
        intro pp h
        rw [receiveMessages, List.mem_cons] at h
        rcases h with h | h
        · exact absurd h (by simp)
        · exact ih pp h

theorem outSends_flush_fst : ∀ (pump : List Ev) (slot : Option String),
    outSends (flushPump pump slot).1 = [] := by
  intro pump
  induction pump with
  | nil => intro slot; rfl
  | cons e rest ih =>
    intro slot
    by_cases hq : isSendOut e = true
    · obtain ⟨pp, rfl⟩ := isSendOut_eq e hq
      simp [flushPump, isSendOut, outSends]
    · simp only [flushPump, hq, Bool.false_eq_true, if_false]
      rw [outSends_cons, ih (slotUpd e slot)]
      cases e <;> try rfl
      simp [isSendOut] at hq

theorem outputs_flush_fst (pump : List Ev) (slot : Option String)
    (h : ∀ pp, Ev.output pp ∉ pump) : outputs (flushPump pump slot).1 = [] := by
  apply outputs_nil_of
  intro pp hpp
  apply h pp
  rw [← flushPump_decomp pump slot]
  exact List.mem_append_left _ hpp

theorem no_output_flush_snd (pump : List Ev) (slot : Option String)
    (h : ∀ pp, Ev.output pp ∉ pump) :
    ∀ pp, Ev.output pp ∉ (flushPump pump slot).2.1 := by
  intro pp hpp
  apply h pp
  rw [← flushPump_decomp pump slot]
  exact List.mem_append_right _ hpp

theorem outSends_flush_snd (pump : List Ev) (slot : Option String) :
    outSends pump = outSends (flushPump pump slot).2.1 := by
  conv_lhs => rw [← flushPump_decomp pump slot]
  rw [outSends_append, outSends_flush_fst, List.nil_append]

theorem outputs_streamLoop_prefix :
    ∀ (sched : List Sched) (pump : List Ev) (slot : Option String),
      (∀ pp, Ev.output pp ∉ pump) →
      outputs (streamLoop pump slot sched).1 <+: outSends pump := by
  intro sched
  induction sched with
  | nil =>
    intro pump slot h
    simp only [streamLoop]
    rw [outputs_flush_fst pump slot h]
    exact List.nil_prefix
  | cons s rest ih =>
    intro pump slot h
    have hfl := outputs_flush_fst pump slot h
    have hpend := no_output_flush_snd pump slot h
    have hsends := outSends_flush_snd pump slot
    cases s with
    | tick w =>
      cases w with
      | none =>
        simp only [streamLoop]
        rw [outputs_append, hfl, List.nil_append, outputs_cons, List.nil_append]
        rw [hsends]
        exact ih _ _ hpend
      | some e =>
        simp only [streamLoop]
        rw [outputs_append, hfl, List.nil_append]
        exact List.nil_prefix
    | recvErrSignal =>
      simp only [streamLoop]
      rcases hs2 : (flushPump pump slot).2.2 with _ | e <;> dsimp only <;>
        rw [hfl] <;> exact List.nil_prefix
    | recvFrame =>
      simp only [streamLoop]
      rcases flushPump_snd_shape pump slot with hnil | ⟨pp, t, hcons⟩
      · rw [hnil]
        dsimp only
        rw [hfl]
        exact List.nil_prefix
      · have hpt : ∀ qq, Ev.output qq ∉ t := by
          intro qq hqq
          exact hpend qq (by rw [hcons]; exact List.mem_cons_of_mem _ hqq)
        rw [hcons]
        dsimp only
        rw [outputs_append, hfl, List.nil_append, outputs_cons, List.nil_append,
          outputs_cons]
        obtain ⟨u, hu⟩ := ih t (flushPump pump slot).2.2 hpt
        refine ⟨u, ?_⟩
        rw [hsends, hcons, outSends_cons]
        simp [hu]

theorem streamLoop_cons_auto (e : Ev) (pump : List Ev) (slot : Option String)
    (sched : List Sched) (h : isSendOut e = false) :
    streamLoop (e :: pump) slot sched
      = (e :: (streamLoop pump (slotUpd e slot) sched).1,
         (streamLoop pump (slotUpd e slot) sched).2) := by
  have hf : flushPump (e :: pump) slot
      = (e :: (flushPump pump (slotUpd e slot)).1,
         (flushPump pump (slotUpd e slot)).2.1,
         (flushPump pump (slotUpd e slot)).2.2) := by
    simp [flushPump, h]
  cases sched with
  | nil => simp [streamLoop, hf]
  | cons s rest =>
    cases s with
    | tick w =>
      cases w with
      | none => simp [streamLoop, hf]
      | some er => simp [streamLoop, hf]
    | recvErrSignal =>
      rcases hs2 : (flushPump pump (slotUpd e slot)).2.2 with _ | er
      · simp [streamLoop, hf, hs2]
      · simp [streamLoop, hf, hs2]
    | recvFrame =>
      rcases flushPump_snd_shape pump (slotUpd e slot) with hnil | ⟨pp, t, hcons⟩
      · simp [streamLoop, hf, hnil]
      · simp [streamLoop, hf, hcons]

theorem streamLoop_complete (p : Nat) :
    ∀ (frames : List ReadResult) (slot : Option String),
      streamLoop (receiveMessages p frames) slot (completeSched (receiveMessages p frames))
        = (deliveredTrace p frames, exitOf frames) := by
  intro frames
  induction frames with
  | nil => intro slot; rfl
  | cons x rest ih =>
    cases x with
    | pong t =>
      intro slot
      simp only [receiveMessages, completeSched]
      rw [streamLoop_cons_auto (Ev.armDeadline (setReadDeadline t p)) _ _ _ rfl]
      simp only [slotUpd]
      rw [ih slot]
      simp [deliveredTrace, exitOf]
    | readErr e =>
      intro slot
      simp [receiveMessages, completeSched, streamLoop, flushPump, isSendOut, slotUpd,
        deliveredTrace, exitOf]
    | data tt pp =>
      cases tt with
      | binary =>
        intro slot
        simp only [receiveMessages, completeSched]
        rw [streamLoop_cons_auto Ev.logWarnBinary _ _ _ rfl]
        simp only [slotUpd]
        rw [ih slot]
        simp [deliveredTrace, exitOf]
      | text =>
        intro slot
        simp only [receiveMessages, completeSched, streamLoop, flushPump, isSendOut,
          if_true]
        rw [ih slot]
        simp [deliveredTrace, exitOf]

theorem outputs_closers : outputs [Ev.stopTicker, Ev.closeConn] = [] := rfl

theorem armValues_closers : armValues [Ev.stopTicker, Ev.closeConn] = [] := rfl

theorem outputs_deliveredTrace (p : Nat) :
    ∀ frames, outputs (deliveredTrace p frames) = textPayloads frames := by
  intro frames
  induction frames with
  | nil => rfl
  | cons x rest ih =>
    cases x with
    | pong t =>
      rw [deliveredTrace, outputs_cons, ih]
      rfl
    | readErr e => rfl
    | data tt pp =>
      cases tt with
      | text =>
        rw [deliveredTrace, outputs_cons,
          show outputs (Ev.output pp :: deliveredTrace p rest)
              = (match Ev.output pp with | Ev.output qq => [qq] | _ => [])
                  ++ outputs (deliveredTrace p rest)
            from outputs_cons _ _, ih]
        rfl
      | binary =>
        rw [deliveredTrace, outputs_cons, ih]
        rfl

theorem armValues_deliveredTrace (p : Nat) :
    ∀ frames, armValues (deliveredTrace p frames)
      = (pongTimes frames).map fun t => setReadDeadline t p := by
  intro frames
  induction frames with
  | nil => rfl
  | cons x rest ih =>
    cases x with
    | pong t =>
      rw [deliveredTrace, armValues_cons, ih]
      rfl
    | readErr e => rfl
    | data tt pp =>
      cases tt with
      | text =>
        rw [deliveredTrace, armValues_cons,
          show armValues (Ev.output pp :: deliveredTrace p rest)
              = (match Ev.output pp with | Ev.armDeadline d => [d] | _ => [])
                  ++ armValues (deliveredTrace p rest)
            from armValues_cons _ _, ih]
        rfl
      | binary =>
        rw [deliveredTrace, armValues_cons, ih]
        rfl

/-- C3.  With the dial and handshake successful: under complete delivery
the payloads forwarded to the output channel are exactly the text-frame
payloads up to the first read error, in receive order, unmodified —
binary-frame payloads are skipped and streaming continues past them; and
under every schedule the forwarded payloads form a prefix of that same
text-payload sequence, so nothing else is ever forwarded. -/
theorem listen_forwards_text_frames (ws : WS) (o : ListenOracle)
    (hc : (connect o.dial).1 = ConnectResult.ok)
    (hs : (subscribe ws o.handshake).2 = SubResult.ok)
    (hsched : o.sched = completeSched (receiveMessages ws.pingPeriod o.frames)) :
    outputs (listen ws o).1 = textPayloads o.frames
    ∧ ∀ sched', outputs (streamLoop (receiveMessages ws.pingPeriod o.frames) none sched').1
        <+: textPayloads o.frames := by
  constructor
  · rcases hcp : connect o.dial with ⟨cr, evs⟩
    rw [hcp] at hc
    dsimp only at hc
    subst hc
    rcases hsp : subscribe ws o.handshake with ⟨sevs, sr⟩
    rw [hsp] at hs
    dsimp only at hs
    subst hs
    have h1 : outputs evs = [] := by
      have h := outputs_connect o.dial
      rwa [hcp] at h
    have hpre : outputs (evs ++ [Ev.setReadLimit ws.maxMessageSize, Ev.setPongHandler])
        = [] := by
      rw [outputs_append, h1]
      rfl
    have h2 : outputs sevs = [] := by
      have h := outputs_subscribe ws o.handshake
      rwa [hsp] at h
    simp only [listen, hcp, hsp]
    rw [hsched, streamLoop_complete]
    cases hE : exitOf o.frames with
    | ret e =>
      dsimp only
      rw [outputs_append, outputs_append, outputs_append, hpre, h2,
        outputs_deliveredTrace, outputs_closers]
      simp
    | cut =>
      dsimp only
      rw [outputs_append, outputs_append, hpre, h2, outputs_deliveredTrace]
      simp
  · intro sched'
    rw [← outSends_receiveMessages ws.pingPeriod o.frames]
    exact outputs_streamLoop_prefix sched' (receiveMessages ws.pingPeriod o.frames) none
      (no_output_receiveMessages ws.pingPeriod o.frames)

/-- Witness for C3: two text frames around a binary frame and a pong, then
a read error; exactly the two text payloads are forwarded, in order. -/
theorem listen_forwards_text_frames_w :
    outputs (listen (NewAlpacaWebSocket "wss://srv" "k" "sec" ["Q.VOO"])
        ⟨⟨none, some ⟨101, ""⟩⟩,
         ⟨⟨none, [XchgRead.readOk "x\"authenticated\"x"]⟩,
          ⟨none, [XchgRead.readOk "streams"]⟩, 100⟩,
         [ReadResult.data MsgType.text [1, 2], ReadResult.pong 55,
          ReadResult.data MsgType.binary [9], ReadResult.data MsgType.text [3],
          ReadResult.readErr "eof"],
         completeSched (receiveMessages (NewAlpacaWebSocket "wss://srv" "k" "sec"
           ["Q.VOO"]).pingPeriod
           [ReadResult.data MsgType.text [1, 2], ReadResult.pong 55,
            ReadResult.data MsgType.binary [9], ReadResult.data MsgType.text [3],
            ReadResult.readErr "eof"])⟩).1
      = [[1, 2], [3]] := by
  have h := listen_forwards_text_frames (NewAlpacaWebSocket "wss://srv" "k" "sec" ["Q.VOO"])
    ⟨⟨none, some ⟨101, ""⟩⟩,
     ⟨⟨none, [XchgRead.readOk "x\"authenticated\"x"]⟩,
      ⟨none, [XchgRead.readOk "streams"]⟩, 100⟩,
     [ReadResult.data MsgType.text [1, 2], ReadResult.pong 55,
      ReadResult.data MsgType.binary [9], ReadResult.data MsgType.text [3],
      ReadResult.readErr "eof"],
     completeSched (receiveMessages (NewAlpacaWebSocket "wss://srv" "k" "sec"
       ["Q.VOO"]).pingPeriod
       [ReadResult.data MsgType.text [1, 2], ReadResult.pong 55,
        ReadResult.data MsgType.binary [9], ReadResult.data MsgType.text [3],
        ReadResult.readErr "eof"])⟩
    rfl (by decide) rfl
  exact h.1.trans (by decide)

/-- C5.  With the dial and handshake successful and complete delivery, the
deadline-arming events of the whole listen trace are exactly one arming at
handshake completion and one per received pong, each with deadline equal
to the arming instant plus six fifths of the ping period; no other event
arms the read deadline. -/
theorem listen_read_deadline_arming (ws : WS) (o : ListenOracle)
    (hc : (connect o.dial).1 = ConnectResult.ok)
    (hs : (subscribe ws o.handshake).2 = SubResult.ok)
    (hsched : o.sched = completeSched (receiveMessages ws.pingPeriod o.frames)) :
    armValues (listen ws o).1
      = (o.handshake.tDone :: pongTimes o.frames).map
          (fun t => setReadDeadline t ws.pingPeriod)
    ∧ ∀ t, setReadDeadline t ws.pingPeriod = t + ws.pingPeriod * 6 / 5 := by
  refine ⟨?_, fun t => rfl⟩
  rcases hcp : connect o.dial with ⟨cr, evs⟩
  rw [hcp] at hc
  dsimp only at hc
  subst hc
  rcases hsp : subscribe ws o.handshake with ⟨sevs, sr⟩
  rw [hsp] at hs
  dsimp only at hs
  subst hs
  have h1 : armValues evs = [] := by
    have h := armValues_connect o.dial
    rwa [hcp] at h
  have hpre : armValues (evs ++ [Ev.setReadLimit ws.maxMessageSize, Ev.setPongHandler])
      = [] := by
    rw [armValues_append, h1]
    rfl
  have h2 : armValues sevs = [setReadDeadline o.handshake.tDone ws.pingPeriod] := by
    have h := armValues_subscribe_ok ws o.handshake (by rw [hsp])
    rwa [hsp] at h
  simp only [listen, hcp, hsp]
  rw [hsched, streamLoop_complete]
  cases hE : exitOf o.frames with
  | ret e =>
    dsimp only
    rw [armValues_append, armValues_append, armValues_append, hpre, h2,
      armValues_deliveredTrace, armValues_closers]
    simp
  | cut =>
    dsimp only
    rw [armValues_append, armValues_append, hpre, h2, armValues_deliveredTrace]
    simp

/-- Witness for C5: handshake completes at instant 100, one pong arrives
at instant 55 with a ten-second ping period; the trace arms the deadline
exactly twice, at 100 and 55 plus twelve seconds. -/
theorem listen_read_deadline_arming_w :
    armValues (listen (NewAlpacaWebSocket "wss://srv" "k" "sec" ["Q.VOO"])
        ⟨⟨none, some ⟨101, ""⟩⟩,
         ⟨⟨none, [XchgRead.readOk "x\"authenticated\"x"]⟩,
          ⟨none, [XchgRead.readOk "streams"]⟩, 100⟩,
         [ReadResult.data MsgType.text [1, 2], ReadResult.pong 55,
          ReadResult.readErr "eof"],
         completeSched (receiveMessages (NewAlpacaWebSocket "wss://srv" "k" "sec"
           ["Q.VOO"]).pingPeriod
           [ReadResult.data MsgType.text [1, 2], ReadResult.pong 55,
            ReadResult.readErr "eof"])⟩).1
      = [12000000100, 12000000055] := by
  have h := listen_read_deadline_arming (NewAlpacaWebSocket "wss://srv" "k" "sec" ["Q.VOO"])
    ⟨⟨none, some ⟨101, ""⟩⟩,
     ⟨⟨none, [XchgRead.readOk "x\"authenticated\"x"]⟩,
      ⟨none, [XchgRead.readOk "streams"]⟩, 100⟩,
     [ReadResult.data MsgType.text [1, 2], ReadResult.pong 55,
      ReadResult.readErr "eof"],
     completeSched (receiveMessages (NewAlpacaWebSocket "wss://srv" "k" "sec"
       ["Q.VOO"]).pingPeriod
       [ReadResult.data MsgType.text [1, 2], ReadResult.pong 55,
        ReadResult.readErr "eof"])⟩
    rfl (by decide) rfl
  exact h.1.trans (by decide)

/-! Supporting lemmas for the subscription request format. -/

theorem goEscapeChar_id (c : Char) (h1 : 0x20 < c.toNat) (h2 : c.toNat < 0x7f)
    (h3 : c ≠ '"') (h4 : c ≠ '\\') : goEscapeChar c = [c] := by
  rw [goEscapeChar, if_neg h3, if_neg h4, if_pos ⟨Nat.le_of_lt h1, h2⟩]

theorem flatMap_escape_id : ∀ (l : List Char), (∀ c ∈ l, goEscapeChar c = [c]) →
    l.flatMap goEscapeChar = l := by
  intro l
  induction l with
  | nil => intro _; rfl
  | cons c rest ih =>
    intro h
    rw [List.flatMap_cons, h c (List.mem_cons_self _ _),
      ih fun x hx => h x (List.mem_cons_of_mem _ hx)]
    rfl

theorem goQuote_canonical (t : String) (h : canonicalTopic t) :
    goQuote t = "\"" ++ t ++ "\"" := by
  apply String.ext
  show '"' :: (t.toList.flatMap goEscapeChar ++ ['"']) = ("\"" ++ t ++ "\"").data
  rw [flatMap_escape_id t.toList fun c hc => by
    obtain ⟨h1, h2, h3, h4⟩ := h c hc
    exact goEscapeChar_id c h1 h2 h3 h4]
  rw [str_data_append, str_data_append]
  rfl

theorem no_space_goQuote (t : String) (h : canonicalTopic t) :
    ∀ c ∈ (goQuote t).toList, c ≠ ' ' := by
  have hd : (goQuote t).toList = '"' :: (t.toList ++ ['"']) := by
    rw [goQuote_canonical t h]
    show ("\"" ++ t ++ "\"").data = '"' :: (t.data ++ ['"'])
    rw [str_data_append, str_data_append]
    rfl
  intro c hc
  rw [hd] at hc
  rcases List.mem_cons.1 hc with h1 | h1
  · subst h1; decide
  rcases List.mem_append.1 h1 with h2 | h2
  · intro heq
    have h3 := (h c h2).1
    subst heq
    exact absurd h3 (by decide)
  · rw [List.mem_singleton] at h2
    subst h2; decide

theorem rep_append (a b : String) :
    goReplaceSpaceComma (a ++ b) = goReplaceSpaceComma a ++ goReplaceSpaceComma b := by
  apply String.ext
  rw [str_data_append]
  show ((a ++ b).data).map (fun c => if c = ' ' then ',' else c)
      = (a.data.map fun c => if c = ' ' then ',' else c)
        ++ (b.data.map fun c => if c = ' ' then ',' else c)
  rw [str_data_append, List.map_append]

theorem rep_nospace (s : String) (h : ∀ c ∈ s.toList, c ≠ ' ') :
    goReplaceSpaceComma s = s := by
  apply String.ext
  show s.data.map (fun c => if c = ' ' then ',' else c) = s.data
  have hcong : ∀ c ∈ s.data, (if c = ' ' then ',' else c) = id c :=
    fun c hc => if_neg (h c hc)
  rw [List.map_congr_left hcong, List.map_id]

theorem rep_space : goReplaceSpaceComma " " = "," := by decide

theorem rep_joinSep : ∀ (l : List String), (∀ s ∈ l, ∀ c ∈ s.toList, c ≠ ' ') →
    goReplaceSpaceComma (joinSep " " l) = joinSep "," l := by
  intro l
  induction l with
  | nil => intro _; decide
  | cons s rest ih =>
    intro h
    cases rest with
    | nil => exact rep_nospace s (h s (List.mem_cons_self _ _))
    | cons x r =>
      show goReplaceSpaceComma (s ++ " " ++ joinSep " " (x :: r))
          = s ++ "," ++ joinSep "," (x :: r)
      rw [rep_append, rep_append, rep_nospace s (h s (List.mem_cons_self _ _)), rep_space,
        ih fun y hy => h y (List.mem_cons_of_mem _ hy)]

theorem streamsArray_canonical (subs : List String) (h : ∀ t ∈ subs, canonicalTopic t) :
    goReplaceSpaceComma (quoteSlice subs)
      = "[" ++ joinSep "," (subs.map fun t => "\"" ++ t ++ "\"") ++ "]" := by
  rw [quoteSlice, rep_append, rep_append, rep_nospace "[" (by decide),
    rep_nospace "]" (by decide)]
  rw [rep_joinSep (subs.map goQuote) fun s hs => by
    obtain ⟨t, ht, rfl⟩ := List.mem_map.1 hs
    exact no_space_goQuote t (h t ht)]
  have hm : subs.map goQuote = subs.map fun t => "\"" ++ t ++ "\"" :=
    List.map_congr_left fun t ht => goQuote_canonical t (h t ht)
  rw [hm]

/-- C10.  For a list of canonical topics (per the spec, subscription
identifiers: printable ASCII without spaces, quotes or backslashes,
modelled here because Subscription.AsCanonical is outside the given
sources), the subscription request is the listen action with the topics
rendered as a quoted, comma-joined array, one quoted element per topic in
list order, and it is this exact text that subscribe writes to the
transport once authentication has succeeded. -/
theorem subscribe_request_format (subs : List String)
    (h : ∀ t ∈ subs, canonicalTopic t) :
    subMsg subs
      = "\x7b\"action\": \"listen\", \"data\": \x7b\"streams\": ["
          ++ joinSep "," (subs.map fun t => "\"" ++ t ++ "\"") ++ "]\x7d\x7d"
    ∧ ∀ (ws : WS) (o : SubscribeOracle) (ra : String),
        ws.subscriptions = subs →
        (exchangeMessage (authMsg ws.apiKey ws.apiSecret) expectedAuthMarker o.auth).2
          = XchgResult.ret ra none →
        Ev.writeMsg (subMsg subs) ∈ (subscribe ws o).1 := by
  constructor
  · rw [subMsg, streamsArray_canonical subs h]
    apply String.ext
    simp only [str_data_append, List.append_assoc]
    rfl
  · intro ws o ra hsubs hx2
    simp only [subscribe]
    rcases hx : exchangeMessage (authMsg ws.apiKey ws.apiSecret) expectedAuthMarker o.auth
      with ⟨evs, r⟩
    rw [hx] at hx2
    dsimp only at hx2
    subst hx2
    obtain ⟨t2, ht2⟩ := exchangeMessage_trace_head (subMsg ws.subscriptions)
      expectedSubMarker o.sub
    rcases hy : exchangeMessage (subMsg ws.subscriptions) expectedSubMarker o.sub
      with ⟨evs2, r2⟩
    rw [hy] at ht2
    dsimp only at ht2
    subst ht2
    rw [hsubs] at hy ⊢
    cases r2 with
    | pending =>
      dsimp only
      simp [List.mem_append, List.mem_cons]
    | ret resp2 errS =>
      cases errS with
      | some e =>
        dsimp only
        simp [List.mem_append, List.mem_cons]
      | none =>
        dsimp only
        simp [List.mem_append, List.mem_cons]

/-- Witness for C10: the canonical list with topics Q.VOO and T.AAPL
yields the subscription request with the two quoted topics comma-joined
in order. -/
theorem subscribe_request_format_w :
    subMsg ["Q.VOO", "T.AAPL"]
      = "\x7b\"action\": \"listen\", \"data\": \x7b\"streams\": [\"Q.VOO\",\"T.AAPL\"]\x7d\x7d" := by
  have h := (subscribe_request_format ["Q.VOO", "T.AAPL"] (by decide)).1
  rw [h]
  decide

end AlpacaWS
